import Mathlib

deriving instance DecidableEq for Except

/-!
Verification development for the grafana-catalyst-datasource backend
(Go sources under pkg/backend). The Go code is shallowly embedded:
pure string manipulation is translated to executable Lean functions on
String / List Char, the token cache is explicit state passing over an
association list, HTTP traffic is an explicit oracle value describing
the responses the server returns, and wall-clock time is an explicit
integer parameter (epoch seconds or milliseconds, matching the Go
code). Machine integers (Go int64) are modelled as Int; none of the
embedded arithmetic can overflow in the scenarios the theorems cover.
-/

namespace Catalyst

/-! ## String helpers (Go strings package operations used by the code)

Go strings.TrimSpace, ToUpper, ToLower, Split, Join, TrimRight and
HasPrefix are translated to structurally recursive functions on
List Char so that every theorem can be settled by kernel reduction.
Unicode case folding is restricted to ASCII (Char.toUpper and
Char.toLower), which is exact for every value the code compares
against (P1..P4, ACTIVE/RESOLVED/IGNORED, true/yes/1/false/no/0,
header names, path segments). -/

/-- Go strings.TrimSpace: drop whitespace from both ends. -/
def trimSpace (s : String) : String :=
  String.mk (((s.toList.dropWhile Char.isWhitespace).reverse.dropWhile
    Char.isWhitespace).reverse)

/-- Go strings.ToUpper restricted to ASCII. -/
def toUpperStr (s : String) : String :=
  String.mk (s.toList.map Char.toUpper)

/-- Go strings.ToLower restricted to ASCII. -/
def toLowerStr (s : String) : String :=
  String.mk (s.toList.map Char.toLower)

/-- Go strings.Join with separator comma. -/
def joinComma : List String → String
  | [] => ""
  | [s] => s
  | s :: rest => s ++ "," ++ joinComma rest

/-- Go strings.Join with separator slash. -/
def joinSlash : List String → String
  | [] => ""
  | [s] => s
  | s :: rest => s ++ "/" ++ joinSlash rest

/-- Helper for splitting a character list at slash characters.
The accumulator holds the current segment reversed. -/
def splitCharList : List Char → List Char → List String
  | [], cur => [String.mk cur.reverse]
  | c :: cs, cur =>
    if c = '/' then String.mk cur.reverse :: splitCharList cs []
    else splitCharList cs (c :: cur)

/-- Go strings.Split with separator slash. -/
def splitOnSlash (s : String) : List String :=
  splitCharList s.toList []

/-- Go strings.TrimRight with cutset slash. -/
def trimRightSlash (s : String) : String :=
  String.mk ((s.toList.reverse.dropWhile (fun c => c = '/')).reverse)

/-- Go strings.HasPrefix with the one-character prefix slash. -/
def startsWithSlash (s : String) : Bool :=
  match s.toList with
  | '/' :: _ => true
  | _ => false

/-- Decimal digit accumulation for parseIntGo. -/
def digitsToNatAux : List Char → Nat → Option Nat
  | [], acc => some acc
  | c :: cs, acc =>
    if c.isDigit then digitsToNatAux cs (acc * 10 + (c.toNat - '0'.toNat))
    else none

/-- Go strconv.ParseInt with base 10: an optional sign followed by at
least one decimal digit. The int64 overflow error of Go cannot occur
for the header values the theorems cover. -/
def parseIntGo (s : String) : Option Int :=
  match s.toList with
  | [] => none
  | '+' :: cs =>
    match cs with
    | [] => none
    | _ => (digitsToNatAux cs 0).map Int.ofNat
  | '-' :: cs =>
    match cs with
    | [] => none
    | _ => (digitsToNatAux cs 0).map (fun n => -(Int.ofNat n))
  | cs => (digitsToNatAux cs 0).map Int.ofNat

/-! ## params.go: allow-sets, normalizers and the parameter builder -/

/-- Membership in the allowedPriority set of params.go. -/
def allowedPriority (s : String) : Bool :=
  s == "P1" || s == "P2" || s == "P3" || s == "P4"

/-- Membership in the allowedIssueStatus set of params.go. -/
def allowedIssueStatus (s : String) : Bool :=
  s == "ACTIVE" || s == "RESOLVED" || s == "IGNORED"

/-- params.go normalizePriority: uppercase-and-trim the priority field,
falling back to the legacy severity field, returning the Go pair
(value, ok). -/
def normalizePriority (priority severity : String) : String × Bool :=
  let p := toUpperStr (trimSpace priority)
  if allowedPriority p then (p, true)
  else
    let s := toUpperStr (trimSpace severity)
    if allowedPriority s then (s, true) else ("", false)

/-- params.go normalizeIssueStatus: uppercase-and-trim the issueStatus
field, falling back to the legacy status field. -/
def normalizeIssueStatus (issueStatus status : String) : String × Bool :=
  let is := toUpperStr (trimSpace issueStatus)
  if allowedIssueStatus is then (is, true)
  else
    let s := toUpperStr (trimSpace status)
    if allowedIssueStatus s then (s, true) else ("", false)

/-- params.go normalizeBoolish: canonicalize boolean-like strings. -/
def normalizeBoolish (s : String) : String × Bool :=
  let v := toLowerStr (trimSpace s)
  if v == "true" || v == "yes" || v == "1" then ("true", true)
  else if v == "false" || v == "no" || v == "0" then ("false", true)
  else ("", false)

/-- params.go clampLimit: substitute a default for non-positive values
and clamp into the inclusive range lo..hi. -/
def clampLimit (n d lo hi : Int) : Int :=
  if n ≤ 0 then d
  else if n < lo then lo
  else if n > hi then hi
  else n

/-! url.Values is modelled as an association list in insertion order;
Set replaces an existing key or appends, Get returns the first value. -/

/-- url.Values.Set: replace the value under an existing key, else append. -/
def vSet : List (String × String) → String → String → List (String × String)
  | [], k, v => [(k, v)]
  | (k0, v0) :: rest, k, v =>
    if k0 = k then (k, v) :: rest else (k0, v0) :: vSet rest k v

/-- url.Values lookup: first value stored under the key, if any. -/
def vGet : List (String × String) → String → Option String
  | [], _ => none
  | (k0, v0) :: rest, k => if k0 = k then some v0 else vGet rest k

/-- model.go QueryModel, the query structure sent from the frontend
(current revision, pkg/backend/model.go). -/
structure QueryModel where
  QueryType : String := ""
  Limit : Option Int := none
  Priority : List String := []
  Status : List String := []
  Device : String := ""
  MAC : String := ""
  Site : String := ""
  Rule : String := ""
  Enrich : Bool := false
  SiteType : String := ""
  ParentSiteName : String := ""
  SiteName : String := ""
  ParentSiteId : String := ""
  SiteId : String := ""
  Metrics : List String := []
deriving DecidableEq

/-- The inline loop of buildAssuranceParamsFromQuery that collects the
valid priority values (normalizePriority with empty severity). -/
def validPriorities (ps : List String) : List String :=
  ps.filterMap (fun p =>
    let n := normalizePriority p ""
    if n.2 then some n.1 else none)

/-- The inline loop of buildAssuranceParamsFromQuery that collects the
valid status values, lowercased for the wire. -/
def validStatuses (ss : List String) : List String :=
  ss.filterMap (fun s =>
    let n := normalizeIssueStatus s ""
    if n.2 then some (toLowerStr n.1) else none)

/-- The opening block of buildAssuranceParamsFromQuery, identical in
both revisions of params.go up to the names of the query fields it
reads: paging (one-based offset), the optional time range, and the
scalar site, device and mac filters with empties skipped. -/
def buildBaseParams (site device mac : String)
    (startTime endTime : Int) (pageSize offset : Int) :
    List (String × String) :=
  let v := vSet [] "limit" (toString (clampLimit pageSize 100 1 1000))
  let off := if offset < 1 then 1 else offset
  let v := vSet v "offset" (toString off)
  let v := if startTime > 0 then vSet v "startTime" (toString startTime) else v
  let v := if endTime > 0 then vSet v "endTime" (toString endTime) else v
  let v := if trimSpace site ≠ "" then vSet v "siteId" (trimSpace site) else v
  let v := if trimSpace device ≠ "" then vSet v "deviceId" (trimSpace device) else v
  let v := if trimSpace mac ≠ "" then vSet v "macAddress" (trimSpace mac) else v
  v

/-- The priority block of buildAssuranceParamsFromQuery, identical in
both revisions: keep the valid values and join them with commas,
omitting the parameter when none survive. -/
def buildPriorityParam (v : List (String × String)) (prio : List String) :
    List (String × String) :=
  if prio.length > 0 then
    let valid := validPriorities prio
    if valid.length > 0 then vSet v "priority" (joinComma valid) else v
  else v

/-- pkg/backend/params.go buildAssuranceParamsFromQuery (current
revision): translate a QueryModel into wire query parameters. -/
def buildAssuranceParamsFromQuery (q : QueryModel)
    (startTime endTime : Int) (pageSize offset : Int) :
    List (String × String) :=
  let v := buildBaseParams q.Site q.Device q.MAC startTime endTime pageSize offset
  let v := buildPriorityParam v q.Priority
  let v :=
    if q.Status.length > 0 then
      let valid := validStatuses q.Status
      if valid.length > 0 then vSet v "status" (joinComma valid) else v
    else v
  v

end Catalyst

namespace Catalyst.Legacy

/-! The repository also carries an earlier revision of params.go and
model.go (the files whose names were lost in the source drop). That
revision of the query model has dedicated SiteID/DeviceID/MacAddress
fields, a single-valued legacy Status field next to IssueStatus, and
the AIDriven filter (a StringOrBool, whose String method yields the
underlying string). Its buildAssuranceParamsFromQuery is the revision
that emits the aiDriven wire parameter; it is embedded here verbatim
from that file. -/

/-- QueryModel of the earlier model.go revision. -/
structure QueryModel where
  QueryType : String := ""
  Limit : Option Int := none
  SiteID : String := ""
  DeviceID : String := ""
  MacAddress : String := ""
  Priority : List String := []
  IssueStatus : String := ""
  Status : String := ""
  AIDriven : String := ""
deriving DecidableEq

/-- buildAssuranceParamsFromQuery of the earlier params.go revision
(the one carrying the aiDriven parameter). -/
def buildAssuranceParamsFromQuery (q : QueryModel)
    (startTime endTime : Int) (pageSize offset : Int) :
    List (String × String) :=
  let v := buildBaseParams q.SiteID q.DeviceID q.MacAddress startTime endTime pageSize offset
  let v := buildPriorityParam v q.Priority
  let v :=
    let n := normalizeIssueStatus q.IssueStatus q.Status
    if n.2 then vSet v "status" (toLowerStr n.1) else v
  let v :=
    let b := normalizeBoolish q.AIDriven
    if b.2 then vSet v "aiDriven" b.1 else v
  v

end Catalyst.Legacy

namespace Catalyst

/-! ## model.go: reverse-proxy prefix extraction and endpoint URLs

Go url.Parse is abstracted to a structural URL value holding scheme,
host and path; the code clears RawQuery and Fragment and only rewrites
Path, so these three components are all the constructions depend on.
url.URL.String renders scheme://host followed by the path. -/

/-- A parsed base URL as the Go code uses it: scheme, host, path. -/
structure GoURL where
  scheme : String
  host : String
  path : String
deriving DecidableEq

/-- url.URL.String for the URL shapes the code constructs. -/
def renderURL (u : GoURL) : String :=
  u.scheme ++ "://" ++ u.host ++ u.path

/-- Go code: find the first index of the path segment dna. -/
def firstIdxDna : List String → Option Nat
  | [] => none
  | s :: rest =>
    if s = "dna" then some 0 else (firstIdxDna rest).map (fun i => i + 1)

/-- model.go dnacPrefix: the path segments strictly before the first
dna segment, joined with slashes, given a leading slash when missing
and stripped of trailing slashes; empty when dna never occurs. -/
def dnacPrefix (p : String) : String :=
  if p = "" then ""
  else
    match firstIdxDna (splitOnSlash p) with
    | none => ""
    | some idx =>
      let pre := joinSlash ((splitOnSlash p).take idx)
      let pre := if pre ≠ "" && !startsWithSlash pre then "/" ++ pre else pre
      trimRightSlash pre

/-- model.go IssuesURL: prefix-preserving URL of the assurance issues
list endpoint. -/
def IssuesURL (u : GoURL) : String :=
  renderURL { u with path := dnacPrefix u.path ++ "/dna/data/api/v1/assuranceIssues" }

/-- model.go TokenURL: prefix-preserving URL of the auth token endpoint. -/
def TokenURL (u : GoURL) : String :=
  renderURL { u with path := dnacPrefix u.path ++ "/dna/system/api/v1/auth/token" }

/-! ## token.go: the token manager

The cache map of the tokenManager is an association list keyed by the
instance UID. time.Now().Unix() becomes an explicit now parameter in
epoch seconds; inside one call every reading of the clock is the same
value (the Go readings are microseconds apart). HTTP-date parsing
(time.Parse over the RFC layouts) is abstracted by an explicit
parse-date function passed in: it returns the epoch second a given
date string denotes, or none when no layout parses it.
strconv.ParseInt on header strings is parseIntGo. -/

/-- model.go tokenEntry: a cached token and its absolute expiry. -/
structure tokenEntry where
  Token : String
  ExpiresAt : Int
deriving DecidableEq

/-- model.go InstanceSettings (the fields the token manager reads). -/
structure InstanceSettings where
  BaseURL : String := ""
  InsecureSkipVerify : Bool := false
  Username : String := ""
  Password : String := ""
  APIToken : String := ""
deriving DecidableEq

/-- The tokenManager cache map, keyed by instance UID. -/
abbrev TMState := List (String × tokenEntry)

/-- Cache map lookup. -/
def tmLookup : TMState → String → Option tokenEntry
  | [], _ => none
  | (k, e) :: rest, uid => if k = uid then some e else tmLookup rest uid

/-- Cache map store: replace the entry under the key or add one. -/
def tmInsert : TMState → String → tokenEntry → TMState
  | [], uid, e => [(uid, e)]
  | (k, e0) :: rest, uid, e =>
    if k = uid then (uid, e) :: rest else (k, e0) :: tmInsert rest uid e

/-- token.go tokenManager.set: cache a token with the default TTL of
55 minutes from now. -/
def tmSet (st : TMState) (now : Int) (uid tok : String) : TMState :=
  tmInsert st uid { Token := tok, ExpiresAt := now + 55 * 60 }

/-- token.go tokenManager.setWithExpiry: store the token under the
given absolute expiry, substituting a floor of now plus five minutes
whenever the expiry is at most one minute in the future. -/
def setWithExpiry (st : TMState) (now : Int) (uid tok : String) (expAt : Int) :
    TMState :=
  let e := if expAt ≤ now + 60 then now + 5 * 60 else expAt
  tmInsert st uid { Token := tok, ExpiresAt := e }

/-- Header map lookup: first value under the key, or the empty string,
matching http.Header.Get on the canonical keys the code reads. -/
def hGet : List (String × String) → String → String
  | [], _ => ""
  | (k0, v) :: rest, k => if k0 = k then v else hGet rest k

/-- token.go parseMaxAge: extract the max-age value of a Cache-Control
header. Go strings.Split on commas becomes a split at commas. -/
def splitCommaAux : List Char → List Char → List String
  | [], cur => [String.mk cur.reverse]
  | c :: cs, cur =>
    if c = ',' then String.mk cur.reverse :: splitCommaAux cs []
    else splitCommaAux cs (c :: cur)

/-- Go strings.Split with separator comma. -/
def splitOnComma (s : String) : List String :=
  splitCommaAux s.toList []

/-- Go strings.HasPrefix. -/
def hasPrefixStr (s pre : String) : Bool :=
  s.toList.take pre.toList.length = pre.toList

/-- token.go parseMaxAge over one comma-separated part list. -/
def maxAgeOfParts : List String → Option Int
  | [] => none
  | p :: rest =>
    let p := trimSpace p
    if hasPrefixStr (toLowerStr p) "max-age=" then
      let val := trimSpace (String.mk (p.toList.drop 8))
      match parseIntGo val with
      | some sec => some sec
      | none => maxAgeOfParts rest
    else maxAgeOfParts rest

/-- token.go parseMaxAge. -/
def parseMaxAge (cacheControl : String) : Option Int :=
  maxAgeOfParts (splitOnComma cacheControl)

/-- token.go parseExpiryFromHeaders: expires-in headers, then absolute
epoch headers, then Cache-Control max-age, then an Expires HTTP date,
in this order. parseDate stands for the time.Parse layout loop. -/
def parseExpiryFromHeaders (parseDate : String → Option Int)
    (h : List (String × String)) (now : Int) : Option Int :=
  let secsOf (k : String) : Option Int :=
    let v := trimSpace (hGet h k)
    if v ≠ "" then
      match parseIntGo v with
      | some sec => if sec > 0 then some (now + sec) else none
      | none => none
    else none
  match secsOf "X-Auth-Token-Expires-In" with
  | some e => some e
  | none =>
  match secsOf "X-Token-Expires-In" with
  | some e => some e
  | none =>
  let epochOf (k : String) : Option Int :=
    let v := trimSpace (hGet h k)
    if v ≠ "" then
      match parseIntGo v with
      | some epoch => if epoch > now then some epoch else none
      | none => none
    else none
  match epochOf "X-Auth-Token-Expiry" with
  | some e => some e
  | none =>
  match epochOf "X-Token-Expiry" with
  | some e => some e
  | none =>
  let cc := hGet h "Cache-Control"
  match (if cc ≠ "" then parseMaxAge cc else none) with
  | some secs =>
    if secs > 0 then some (now + secs)
    else
      let exp := trimSpace (hGet h "Expires")
      if exp ≠ "" then
        match parseDate exp with
        | some t => if t > now then some t else none
        | none => none
      else none
  | none =>
    let exp := trimSpace (hGet h "Expires")
    if exp ≠ "" then
      match parseDate exp with
      | some t => if t > now then some t else none
      | none => none
    else none

/-- token.go: the anonymous JSON body structure of the login response.
Absent JSON fields decode to zero values, exactly as in Go. -/
structure TokenBody where
  Token : String := ""
  Token2 : String := ""
  ExpiresIn : Int := 0
  ExpiresInAlt : Int := 0
  ExpiryEpoch : Int := 0
  ExpiresAt : Int := 0
  ExpireTimeRFC : String := ""
  Expiration : Int := 0
deriving DecidableEq

/-- token.go deriveExpiryFromJSON: expiresIn, expires_in, expiresAt,
expiry, expiration, then the expireTime RFC string, in this order. -/
def deriveExpiryFromJSON (parseDate : String → Option Int)
    (body : TokenBody) (now : Int) : Option Int :=
  if body.ExpiresIn > 0 then some (now + body.ExpiresIn)
  else if body.ExpiresInAlt > 0 then some (now + body.ExpiresInAlt)
  else if body.ExpiresAt > now + 60 then some body.ExpiresAt
  else if body.ExpiryEpoch > now + 60 then some body.ExpiryEpoch
  else if body.Expiration > 0 then
    (if body.Expiration > now + 60 then some body.Expiration
     else some (now + body.Expiration))
  else
    let ts := trimSpace body.ExpireTimeRFC
    if ts ≠ "" then
      match parseDate ts with
      | some t => if t > now + 60 then some t else none
      | none => none
    else none

/-- The login HTTP exchange as the oracle sees it: response status,
headers and decoded JSON body. A transport failure is the none case of
the Option wrapping this structure. -/
structure LoginResponse where
  status : Int
  headers : List (String × String)
  body : TokenBody
deriving DecidableEq

/-- The body token coalescing of token.go: the Token field, else the
lowercase token field, both trimmed. -/
def bodyTok (b : TokenBody) : String :=
  let tok := trimSpace b.Token
  if tok = "" then trimSpace b.Token2 else tok

/-- token.go tokenManager.getToken. The result triple is the returned
token or error, the cache state after the call, and whether a login
HTTP request was issued (the POST to the token endpoint). The URL
construction step (TokenURL) is covered by the URL section; the oracle
stands for the POST it addresses. -/
def getToken (parseDate : String → Option Int) (st : TMState) (now : Int)
    (uid : String) (s : InstanceSettings) (resp : Option LoginResponse) :
    Except String String × TMState × Bool :=
  -- 1. manual override
  if trimSpace s.APIToken ≠ "" then (Except.ok (trimSpace s.APIToken), st, false)
  else
    -- 2. cache check
    let hit : Option String :=
      match tmLookup st uid with
      | some e =>
        if now < e.ExpiresAt ∧ trimSpace e.Token ≠ "" then some e.Token else none
      | none => none
    match hit with
    | some t => (Except.ok t, st, false)
    | none =>
      -- 3. new token request
      if s.Username = "" ∨ s.Password = "" then
        (Except.error "no username/password provided; cannot obtain token", st, false)
      else
        match resp with
        | none => (Except.error "transport failure", st, true)
        | some r =>
          if r.status < 200 ∨ r.status ≥ 300 then
            (Except.error "token endpoint returned non-2xx", st, true)
          else
            -- 4. token extraction: header first
            let htok := trimSpace (hGet r.headers "X-Auth-Token")
            if htok ≠ "" then
              match parseExpiryFromHeaders parseDate r.headers now with
              | some expAt => (Except.ok htok, setWithExpiry st now uid htok expAt, true)
              | none => (Except.ok htok, tmSet st now uid htok, true)
            else
              -- 5. fallback to body
              let tok := bodyTok r.body
              if tok = "" then (Except.error "token not found in response", st, true)
              else
                match parseExpiryFromHeaders parseDate r.headers now with
                | some expAt => (Except.ok tok, setWithExpiry st now uid tok expAt, true)
                | none =>
                  match deriveExpiryFromJSON parseDate r.body now with
                  | some expAt => (Except.ok tok, setWithExpiry st now uid tok expAt, true)
                  | none => (Except.ok tok, tmSet st now uid tok, true)

/-! ## datasource.go QueryData: result normalization

Raw issue records are Go values of type map string to any, produced by
json.Unmarshal. They are embedded as association lists from field name
to a dynamic JSON value. -/

/-- A dynamic JSON value as the normalizer inspects it: a string, a
number already coerced to int64 (the Go code converts float64, int64
and json.Number uniformly), a null, or anything else. -/
inductive JVal where
  | jstr (s : String)
  | jnum (n : Int)
  | jnull
  | jother
deriving DecidableEq

/-- A raw issue record: the map string to any of the Go code. -/
abbrev RawRecord := List (String × JVal)

/-- Record field lookup (Go map indexing; keys are unique). -/
def jlookup : RawRecord → String → Option JVal
  | [], _ => none
  | (k0, v) :: rest, k => if k0 = k then some v else jlookup rest k

/-- The getStr closure of QueryData: the value under the key when it is
present, non-nil and a string; the empty string otherwise. -/
def getStr (it : RawRecord) (k : String) : String :=
  match jlookup it k with
  | some (JVal.jstr s) => s
  | _ => ""

/-- The getNum closure of QueryData: the value under the key coerced to
int64 when it is numeric; zero otherwise. -/
def getNum (it : RawRecord) (k : String) : Int :=
  match jlookup it k with
  | some (JVal.jnum n) => n
  | _ => 0

/-- datasource.go firstNonEmpty: the first argument that is non-empty
after trimming, returned untrimmed. -/
def firstNonEmpty : List String → String
  | [] => ""
  | v :: rest => if trimSpace v ≠ "" then v else firstNonEmpty rest

/-- datasource.go firstNonZero: the first non-zero argument. -/
def firstNonZero : List Int → Int
  | [] => 0
  | v :: rest => if v ≠ 0 then v else firstNonZero rest

/-- The row struct local to QueryData. -/
structure Row where
  TimeMs : Int
  ID : String
  Title : String
  Severity : String
  Status : String
  Category : String
  Device : String
  MAC : String
  Site : String
  Rule : String
  Details : String
deriving DecidableEq

/-- Site-name map lookup (Go map indexing with the ok flag). -/
def smLookup : List (String × String) → String → Option String
  | [], _ => none
  | (k0, v) :: rest, k => if k0 = k then some v else smLookup rest k

/-- The per-record body of the transformation loop of QueryData: build
one Row by coalescing candidate field names, resolve the site name
through the enrichment map with the raw id as fallback, and substitute
the window start for a missing timestamp. -/
def normalizeRecord (it : RawRecord) (windowStartMs : Int)
    (siteMap : List (String × String)) : Row :=
  let siteID := getStr it "siteId"
  let siteName :=
    match smLookup siteMap siteID with
    | some name => name
    | none => siteID
  let r : Row :=
    { TimeMs := firstNonZero
        [getNum it "timestamp", getNum it "firstOccurredTime", getNum it "startTime"]
      ID := firstNonEmpty [getStr it "issueId", getStr it "id", getStr it "instanceId"]
      Title := firstNonEmpty [getStr it "name", getStr it "title", getStr it "issueTitle"]
      Severity := firstNonEmpty [getStr it "priority", getStr it "severity"]
      Status := firstNonEmpty [getStr it "issueStatus", getStr it "status"]
      Category := firstNonEmpty [getStr it "category", getStr it "type"]
      Device := firstNonEmpty [getStr it "deviceId", getStr it "deviceIp", getStr it "device"]
      MAC := firstNonEmpty [getStr it "macAddress", getStr it "clientMac"]
      Site := siteName
      Rule := getStr it "ruleId"
      Details := firstNonEmpty
        [getStr it "description", getStr it "details", getStr it "issueDescription"] }
  if r.TimeMs = 0 then { r with TimeMs := windowStartMs } else r

/-- The transformation loop of QueryData over all accumulated issues:
one data frame row per accumulated record. -/
def issueRowsOf (recs : List RawRecord) (windowStartMs : Int)
    (siteMap : List (String × String)) : List Row :=
  recs.map (fun it => normalizeRecord it windowStartMs siteMap)

/-! ## datasource.go QueryData: the pagination loop

The loop is driven by an explicit oracle: one PageTrial per iteration
describing whether getToken succeeds at the loop head, the response of
the first GET at the current offset, whether getToken succeeds again
after an invalidation, and the response of the retried GET. The loop
additionally records the externally visible events (token fetches,
list requests with their wire offset and limit, cache invalidation)
so that the temporal claims are statements about the event trace.
Records of a 2xx response stand for the parsed envelope list (the
envelope and bare-array decodings yield the same list). -/

/-- One HTTP exchange of the list endpoint: transport failure, or a
status with the decoded record list. -/
inductive HttpResult where
  | transportErr
  | ok (status : Int) (records : List RawRecord)
deriving DecidableEq

/-- The oracle for one iteration of the pagination loop. -/
structure PageTrial where
  tokenOk : Bool
  first : HttpResult
  retryTokenOk : Bool
  retry : HttpResult
deriving DecidableEq

/-- Externally visible events of the pagination loop. -/
inductive Ev where
  | tokenFetch
  | request (offset lim : Int) (isRetry : Bool)
  | invalidate
deriving DecidableEq

/-- The default page size of the issues pagination loop. -/
def pageSize : Nat := 25

/-- One iteration body of the pagination loop up to the point where the
record list of a successful response is in hand: token acquisition, the
GET, the single 401/403 invalidate-refresh-retry, and the generic
non-2xx check. Returns the parsed record list (none on the error-break
paths) together with the events, in order. -/
def pageFetch (t : PageTrial) (offset lim : Int) :
    Option (List RawRecord) × List Ev :=
  if !t.tokenOk then (none, [Ev.tokenFetch])
  else
    match t.first with
    | HttpResult.transportErr =>
      (none, [Ev.tokenFetch, Ev.request offset lim false])
    | HttpResult.ok st arr =>
      if st = 401 ∨ st = 403 then
        if !t.retryTokenOk then
          (none, [Ev.tokenFetch, Ev.request offset lim false, Ev.invalidate,
            Ev.tokenFetch])
        else
          match t.retry with
          | HttpResult.transportErr =>
            (none, [Ev.tokenFetch, Ev.request offset lim false, Ev.invalidate,
              Ev.tokenFetch, Ev.request offset lim true])
          | HttpResult.ok st2 arr2 =>
            if st2 < 200 ∨ st2 ≥ 300 then
              (none, [Ev.tokenFetch, Ev.request offset lim false, Ev.invalidate,
                Ev.tokenFetch, Ev.request offset lim true])
            else
              (some arr2, [Ev.tokenFetch, Ev.request offset lim false, Ev.invalidate,
                Ev.tokenFetch, Ev.request offset lim true])
      else if st < 200 ∨ st ≥ 300 then
        (none, [Ev.tokenFetch, Ev.request offset lim false])
      else
        (some arr, [Ev.tokenFetch, Ev.request offset lim false])

/-- The pagination loop of QueryData. hardLimit is the hard cap, offset
the zero-based Go loop variable (the wire offset is offset plus one),
acc the accumulated records. The triple holds the accumulated records
at exit, the event trace, and whether the loop exited with an error
(dr.Error set). The oracle list supplies one trial per iteration; an
exhausted oracle ends the run as if the cap had been reached, which is
harmless because every theorem quantifies over all oracle lists. -/
def fetchLoop (hardLimit : Nat) :
    List PageTrial → Nat → List RawRecord → List RawRecord × List Ev × Bool
  | trials, offset, acc =>
    if hardLimit ≤ acc.length then (acc, [], false)
    else
      match trials with
      | [] => (acc, [], false)
      | t :: rest =>
        let lim := min pageSize (hardLimit - acc.length)
        match pageFetch t (Int.ofNat (offset + 1)) (Int.ofNat lim) with
        | (none, evs) => (acc, evs, true)
        | (some arr, evs) =>
          if arr.length = 0 then (acc, evs, false)
          else
            let acc2 := acc ++ arr
            if arr.length < pageSize then (acc2, evs, false)
            else
              let res := fetchLoop hardLimit rest (offset + pageSize) acc2
              (res.1, evs ++ res.2.1, res.2.2)

/-- The hard cap setup of QueryData: 25 unless the query limit field is
present and strictly positive. -/
def hardLimitOf (limit : Option Int) : Int :=
  match limit with
  | some l => if l > 0 then l else 25
  | none => 25

/-- The full issues branch of QueryData for one query: run the
pagination loop from offset zero with the hard cap derived from the
query limit, under the given oracle. -/
def queryIssues (limit : Option Int) (trials : List PageTrial) :
    List RawRecord × List Ev × Bool :=
  fetchLoop (hardLimitOf limit).toNat trials 0 []

/-- Environment assumption used by the bounded-row theorems: mirror of
the loop control flow checking that every page response the loop
consumes holds at most the number of records requested for that page.
This is a property of the upstream server, not of the code. -/
def honestRun (hardLimit : Nat) :
    List PageTrial → Nat → Nat → Bool
  | trials, offset, accLen =>
    if hardLimit ≤ accLen then true
    else
      match trials with
      | [] => true
      | t :: rest =>
        let lim := min pageSize (hardLimit - accLen)
        match pageFetch t (Int.ofNat (offset + 1)) (Int.ofNat lim) with
        | (none, _) => true
        | (some arr, _) =>
          decide (arr.length ≤ lim) &&
            (if arr.length = 0 then true
             else if arr.length < pageSize then true
             else honestRun hardLimit rest (offset + pageSize) (accLen + arr.length))

/-- The expiry-derivation order stated by the specification: header
signals first, then, for a body-derived token, the JSON body signals;
a derived expiry at most one minute in the future is floored to now
plus five minutes; with no signal at all the default is now plus
fifty-five minutes. Stated from the claim for comparison with the
behavior of getToken. -/
def specExpiryChain (pd : String → Option Int) (r : LoginResponse)
    (now : Int) : Int :=
  match parseExpiryFromHeaders pd r.headers now with
  | some e => if e ≤ now + 60 then now + 5 * 60 else e
  | none =>
    match deriveExpiryFromJSON pd r.body now with
    | some e => if e ≤ now + 60 then now + 5 * 60 else e
    | none => now + 55 * 60

/-- The expiry-derivation order stated by the specification for a
login whose token comes from the dedicated response header: only the
header signals are consulted, with the same floor of five minutes and
default of fifty-five minutes; the JSON body is never read. Stated
from the claim for comparison with the behavior of getToken. -/
def specExpiryChainHeader (pd : String → Option Int) (r : LoginResponse)
    (now : Int) : Int :=
  match parseExpiryFromHeaders pd r.headers now with
  | some e => if e ≤ now + 60 then now + 5 * 60 else e
  | none => now + 55 * 60

end Catalyst


namespace Catalyst

/-! ## Helper lemmas about the url.Values model -/

theorem vGet_vSet_self (vs : List (String × String)) (k v : String) :
    vGet (vSet vs k v) k = some v := by
  induction vs with
  | nil => simp [vSet, vGet]
  | cons hd tl ih =>
    obtain ⟨k0, v0⟩ := hd
    by_cases h : k0 = k
    · simp [vSet, vGet, h]
    · simp [vSet, vGet, h, ih]

theorem vGet_vSet_of_ne (vs : List (String × String)) (k k' v : String)
    (h : ¬ k = k') : vGet (vSet vs k v) k' = vGet vs k' := by
  induction vs with
  | nil => simp [vSet, vGet, h]
  | cons hd tl ih =>
    obtain ⟨k0, v0⟩ := hd
    by_cases h0 : k0 = k
    · subst h0
      simp [vSet, vGet, h]
    · simp [vSet, vGet, h0, ih]

theorem vGet_ite (c : Prop) [Decidable c] (a b : List (String × String))
    (k : String) :
    vGet (if c then a else b) k = if c then vGet a k else vGet b k := by
  split <;> rfl

theorem vGet_buildBaseParams (site device mac : String)
    (st et ps off : Int) (k : String)
    (h1 : ¬ "limit" = k) (h2 : ¬ "offset" = k) (h3 : ¬ "startTime" = k)
    (h4 : ¬ "endTime" = k) (h5 : ¬ "siteId" = k) (h6 : ¬ "deviceId" = k)
    (h7 : ¬ "macAddress" = k) :
    vGet (buildBaseParams site device mac st et ps off) k = none := by
  unfold buildBaseParams
  simp only [vGet_ite, vGet_vSet_of_ne _ _ _ _ h1, vGet_vSet_of_ne _ _ _ _ h2,
    vGet_vSet_of_ne _ _ _ _ h3, vGet_vSet_of_ne _ _ _ _ h4,
    vGet_vSet_of_ne _ _ _ _ h5, vGet_vSet_of_ne _ _ _ _ h6,
    vGet_vSet_of_ne _ _ _ _ h7, vGet]
  simp [h1, h2, h3, h4, h5, h6, h7]

theorem vGet_buildPriorityParam_self (v : List (String × String))
    (prio : List String) :
    vGet (buildPriorityParam v prio) "priority"
      = if validPriorities prio = [] then vGet v "priority"
        else some (joinComma (validPriorities prio)) := by
  unfold buildPriorityParam
  by_cases h : validPriorities prio = []
  · simp [h]
  · have hlen : (validPriorities prio).length > 0 := List.length_pos.mpr h
    have hp : prio.length > 0 := by
      rcases prio with _ | ⟨a, l⟩
      · simp [validPriorities] at h
      · simp
    simp [h, hlen, hp, vGet_vSet_self]

theorem vGet_buildPriorityParam_of_ne (v : List (String × String))
    (prio : List String) (k : String) (h : ¬ "priority" = k) :
    vGet (buildPriorityParam v prio) k = vGet v k := by
  unfold buildPriorityParam
  by_cases h1 : prio.length > 0
  · by_cases h2 : (validPriorities prio).length > 0
    · simp [h1, h2, vGet_vSet_of_ne _ _ _ _ h]
    · simp [h1, h2]
  · simp [h1]

theorem normalizePriority_empty_severity (p : String) :
    normalizePriority p "" =
      if allowedPriority (toUpperStr (trimSpace p)) then
        (toUpperStr (trimSpace p), true)
      else ("", false) := by
  have h0 : allowedPriority (toUpperStr (trimSpace "")) = false := by decide
  simp [normalizePriority, h0]

/-! ## Claim C7: the priority wire parameter -/

/-- C7: for every query, the issues parameter builder emits a priority
parameter exactly when at least one element of the priority filter
list, after trimming and uppercasing, lies in the allow-set P1..P4;
when present its value is the comma-join of the surviving normalized
values in order, and a list of only invalid tokens such as X9 yields
no priority parameter rather than an error. -/
theorem priority_param_filtering (q : QueryModel) (st et ps off : Int) :
    (vGet (buildAssuranceParamsFromQuery q st et ps off) "priority"
        = if validPriorities q.Priority = [] then none
          else some (joinComma (validPriorities q.Priority)))
    ∧ (validPriorities q.Priority ≠ [] ↔
        ∃ p ∈ q.Priority, allowedPriority (toUpperStr (trimSpace p)) = true)
    ∧ (q.Priority = ["X9"] →
        vGet (buildAssuranceParamsFromQuery q st et ps off) "priority" = none) := by
  have hmain :
      vGet (buildAssuranceParamsFromQuery q st et ps off) "priority"
        = if validPriorities q.Priority = [] then none
          else some (joinComma (validPriorities q.Priority)) := by
    unfold buildAssuranceParamsFromQuery
    simp only [vGet_ite,
      vGet_vSet_of_ne _ _ _ _ (by decide : ¬ "status" = "priority"),
      ite_self, vGet_buildPriorityParam_self]
    rw [vGet_buildBaseParams] <;> decide
  refine ⟨hmain, ?_, ?_⟩
  · constructor
    · intro hne
      rcases List.exists_mem_of_ne_nil _ hne with ⟨x, hx⟩
      rcases List.mem_filterMap.mp hx with ⟨p, hp, hfp⟩
      refine ⟨p, hp, ?_⟩
      rw [normalizePriority_empty_severity] at hfp
      by_contra hna
      simp [hna] at hfp
    · rintro ⟨p, hp, hap⟩ hnil
      have hnone :
          (let n := normalizePriority p ""
            if n.2 then some n.1 else none) = none :=
        List.filterMap_eq_nil_iff.mp hnil p hp
      rw [normalizePriority_empty_severity] at hnone
      simp [hap] at hnone
  · intro hx
    rw [hmain, hx]
    have : validPriorities ["X9"] = [] := by decide
    simp [this]

/-- Witness for C7 at the concrete boundary input of the claim. -/
theorem priority_param_filtering_witness :
    vGet (buildAssuranceParamsFromQuery { Priority := ["X9"] } 0 0 25 1)
      "priority" = none :=
  (priority_param_filtering { Priority := ["X9"] } 0 0 25 1).2.2 rfl

end Catalyst

namespace Catalyst

/-! ## Claim C6: the aiDriven wire parameter -/

/-- C6: the issues parameter builder (the params.go revision carrying
the AI-driven filter) accepts boolean-like strings case-insensitively,
emitting aiDriven with wire value true for true/yes/1 and false for
false/no/0, and omits the aiDriven parameter entirely when the value
is unrecognized or empty. -/
theorem aiDriven_param_normalized (q : Legacy.QueryModel) (st et ps off : Int) :
    (vGet (Legacy.buildAssuranceParamsFromQuery q st et ps off) "aiDriven"
        = if (normalizeBoolish q.AIDriven).2 then
            some (normalizeBoolish q.AIDriven).1
          else none)
    ∧ (∀ s : String,
        toLowerStr (trimSpace s) = "true" ∨ toLowerStr (trimSpace s) = "yes" ∨
          toLowerStr (trimSpace s) = "1" →
        normalizeBoolish s = ("true", true))
    ∧ (∀ s : String,
        toLowerStr (trimSpace s) = "false" ∨ toLowerStr (trimSpace s) = "no" ∨
          toLowerStr (trimSpace s) = "0" →
        normalizeBoolish s = ("false", true))
    ∧ (∀ s : String,
        toLowerStr (trimSpace s) ∉
          (["true", "yes", "1", "false", "no", "0"] : List String) →
        normalizeBoolish s = ("", false)) := by
  refine ⟨?_, ?_, ?_, ?_⟩
  · unfold Legacy.buildAssuranceParamsFromQuery
    by_cases hb : (normalizeBoolish q.AIDriven).2
    · simp only [hb, if_true, vGet_vSet_self]
    · simp only [hb, if_false, Bool.false_eq_true]
      by_cases hs : (normalizeIssueStatus q.IssueStatus q.Status).2
      · simp only [hs, if_true,
          vGet_vSet_of_ne _ _ _ _ (by decide : ¬ "status" = "aiDriven"),
          vGet_buildPriorityParam_of_ne _ _ _ (by decide : ¬ "priority" = "aiDriven")]
        rw [vGet_buildBaseParams] <;> decide
      · simp only [hs, if_false, Bool.false_eq_true,
          vGet_buildPriorityParam_of_ne _ _ _ (by decide : ¬ "priority" = "aiDriven")]
        rw [vGet_buildBaseParams] <;> decide
  · intro s h
    rcases h with h | h | h <;> simp [normalizeBoolish, h]
  · intro s h
    rcases h with h | h | h <;> simp [normalizeBoolish, h]
  · intro s h
    simp only [List.mem_cons, List.not_mem_nil, or_false, not_or] at h
    obtain ⟨h1, h2, h3, h4, h5, h6⟩ := h
    simp [normalizeBoolish, h1, h2, h3, h4, h5, h6]

/-- Witness for C6: a padded mixed-case yes maps to wire value true,
and an unrecognized value leaves the parameter out. -/
theorem aiDriven_param_normalized_witness :
    vGet (Legacy.buildAssuranceParamsFromQuery { AIDriven := " YES " } 0 0 25 1)
        "aiDriven" = some "true"
    ∧ normalizeBoolish "nope" = ("", false) := by
  constructor
  · rw [(aiDriven_param_normalized { AIDriven := " YES " } 0 0 25 1).1]
    decide
  · exact (aiDriven_param_normalized {} 0 0 25 1).2.2.2 "nope" (by decide)

end Catalyst

namespace Catalyst

/-! ## Helper lemmas about slash splitting and joining -/

theorem splitCharList_append_no_slash (xs : List Char) (ys cur : List Char)
    (h : '/' ∉ xs) :
    splitCharList (xs ++ ys) cur = splitCharList ys (xs.reverse ++ cur) := by
  induction xs generalizing cur with
  | nil => simp
  | cons c cs ih =>
    have hc : ¬ (c = '/') := fun e => h (e ▸ List.mem_cons_self c cs)
    have hcs : '/' ∉ cs := fun m => h (List.mem_cons_of_mem _ m)
    simp [splitCharList, hc, ih _ hcs, List.append_assoc]

theorem splitOnSlash_joinSlash (l : List String) (hne : l ≠ [])
    (hsf : ∀ s ∈ l, '/' ∉ s.toList) :
    splitOnSlash (joinSlash l) = l := by
  induction l with
  | nil => cases hne rfl
  | cons s rest ih =>
    rcases rest with _ | ⟨t, ts⟩
    · show splitCharList (joinSlash [s]).toList [] = [s]
      have hs : '/' ∉ s.toList := hsf s (by simp)
      have h1 : (joinSlash [s]).toList = s.toList ++ [] := by
        simp [joinSlash]
      rw [h1, splitCharList_append_no_slash _ _ _ hs]
      simp [splitCharList]
    · have hs : '/' ∉ s.toList := hsf s (by simp)
      have hrest : ∀ x ∈ t :: ts, '/' ∉ x.toList := by
        intro x hx
        exact hsf x (List.mem_cons_of_mem _ hx)
      have h1 : (joinSlash (s :: t :: ts)).toList
          = s.toList ++ ('/' :: (joinSlash (t :: ts)).toList) := by
        show (s ++ "/" ++ joinSlash (t :: ts)).data = _
        simp [String.data_append]
      show splitCharList (joinSlash (s :: t :: ts)).toList [] = _
      rw [h1, splitCharList_append_no_slash _ _ _ hs]
      have h2 : splitCharList ('/' :: (joinSlash (t :: ts)).toList)
          (s.toList.reverse ++ [])
          = String.mk ((s.toList.reverse ++ []).reverse)
              :: splitCharList (joinSlash (t :: ts)).toList [] := by
        simp [splitCharList]
      rw [h2]
      have h3 : splitCharList (joinSlash (t :: ts)).toList [] = t :: ts :=
        ih (by simp) hrest
      rw [h3]
      simp

theorem firstIdxDna_append (ss rest : List String) (h : "dna" ∉ ss) :
    firstIdxDna (ss ++ "dna" :: rest) = some ss.length := by
  induction ss with
  | nil => simp [firstIdxDna]
  | cons a t ih =>
    have ha : ¬ (a = "dna") := fun e => h (e ▸ List.mem_cons_self a t)
    have ht : "dna" ∉ t := fun m => h (List.mem_cons_of_mem _ m)
    simp [firstIdxDna, ha, ih ht]

theorem trimRightSlash_of_getLast_ne (s : String)
    (h : ∀ c, s.toList.getLast? = some c → ¬ (c = '/')) :
    trimRightSlash s = s := by
  unfold trimRightSlash
  apply String.ext
  rcases hrev : s.toList.reverse with _ | ⟨c, cs⟩
  · have h0 : s.data = [] := by
      have := congrArg List.reverse hrev
      simpa using this
    simp [h0]
  · have hlast : s.toList.getLast? = some c := by
      rw [← List.head?_reverse, hrev]
      rfl
    have hc : ¬ (c = '/') := h c hlast
    rw [List.dropWhile_cons]
    simp only [hc, decide_False, Bool.false_eq_true, if_false]
    rw [← hrev, List.reverse_reverse]
    rfl

theorem joinSlash_toList_ne_nil (l : List String) (hne : l ≠ [])
    (h : ∀ s ∈ l, s ≠ "") : (joinSlash l).toList ≠ [] := by
  rcases l with _ | ⟨a, t⟩
  · cases hne rfl
  · rcases t with _ | ⟨b, ts⟩
    · have ha : a ≠ "" := h a (by simp)
      show (joinSlash [a]).data ≠ []
      simp only [joinSlash]
      intro hd
      exact ha (String.ext hd)
    · show (a ++ "/" ++ joinSlash (b :: ts)).data ≠ []
      simp [String.data_append]

theorem joinSlash_getLast_ne (l : List String) (hne : l ≠ [])
    (h : ∀ s ∈ l, s ≠ "" ∧ '/' ∉ s.toList) :
    ∀ c, (joinSlash l).toList.getLast? = some c → ¬ (c = '/') := by
  induction l with
  | nil => cases hne rfl
  | cons a t ih =>
    rcases t with _ | ⟨b, ts⟩
    · intro c hc e
      subst e
      have hmem : '/' ∈ (joinSlash [a]).toList := List.mem_of_mem_getLast? hc
      have : joinSlash [a] = a := rfl
      rw [this] at hmem
      exact (h a (by simp)).2 hmem
    · intro c hc
      have hJ : (joinSlash (b :: ts)).toList ≠ [] :=
        joinSlash_toList_ne_nil _ (by simp)
          (fun s hs => (h s (List.mem_cons_of_mem _ hs)).1)
      have h1 : (joinSlash (a :: b :: ts)).toList
          = a.toList ++ ('/' :: (joinSlash (b :: ts)).toList) := by
        show (a ++ "/" ++ joinSlash (b :: ts)).data = _
        simp [String.data_append]
      rw [h1] at hc
      rw [List.getLast?_append_of_ne_nil _ (by simp)] at hc
      have h2 : ('/' :: (joinSlash (b :: ts)).toList)
          = ['/'] ++ (joinSlash (b :: ts)).toList := rfl
      rw [h2, List.getLast?_append_of_ne_nil _ hJ] at hc
      exact ih (by simp) (fun s hs => h s (List.mem_cons_of_mem _ hs)) c hc

theorem joinSlash_nil_cons (x : String) (xs : List String) :
    joinSlash ("" :: x :: xs) = "/" ++ joinSlash (x :: xs) := by
  show "" ++ "/" ++ joinSlash (x :: xs) = "/" ++ joinSlash (x :: xs)
  apply String.ext
  simp [String.data_append]

end Catalyst

namespace Catalyst

theorem startsWithSlash_slash_append (x : String) :
    startsWithSlash ("/" ++ x) = true := by
  unfold startsWithSlash
  have h : ("/" ++ x).toList = '/' :: x.toList := by
    show ("/" ++ x).data = _
    simp [String.data_append]
  rw [h]
  rfl

theorem dnacPrefix_verbatim (ss rest : List String)
    (hd : "dna" ∉ ss) (hne : ss ≠ [])
    (hss : ∀ s ∈ ss, s ≠ "" ∧ '/' ∉ s.toList)
    (hrest : ∀ s ∈ rest, '/' ∉ s.toList) :
    dnacPrefix (joinSlash (("" :: ss) ++ ("dna" :: rest)))
      = "/" ++ joinSlash ss := by
  obtain ⟨x, xs, rfl⟩ : ∃ x xs, ss = x :: xs := by
    rcases ss with _ | ⟨x, xs⟩
    · cases hne rfl
    · exact ⟨x, xs, rfl⟩
  have hall : ∀ s ∈ ("" :: (x :: xs)) ++ ("dna" :: rest), '/' ∉ s.toList := by
    intro s hs
    rcases List.mem_append.mp hs with hmem | hmem
    · rcases List.mem_cons.mp hmem with he | hmem2
      · subst he
        simp
      · exact (hss s hmem2).2
    · rcases List.mem_cons.mp hmem with he | hmem2
      · subst he
        decide
      · exact hrest s hmem2
  have hsplit :
      splitOnSlash (joinSlash (("" :: (x :: xs)) ++ ("dna" :: rest)))
        = ("" :: (x :: xs)) ++ ("dna" :: rest) :=
    splitOnSlash_joinSlash _ (by simp) hall
  have hnilcons :
      joinSlash (("" :: (x :: xs)) ++ ("dna" :: rest))
        = "/" ++ joinSlash ((x :: xs) ++ ("dna" :: rest)) := by
    have h1 : ("" :: (x :: xs)) ++ ("dna" :: rest)
        = "" :: x :: (xs ++ ("dna" :: rest)) := by simp
    rw [h1]
    exact joinSlash_nil_cons x (xs ++ ("dna" :: rest))
  have hp_ne : joinSlash (("" :: (x :: xs)) ++ ("dna" :: rest)) ≠ "" := by
    rw [hnilcons]
    intro e
    have hdata := congrArg String.data e
    simp [String.data_append] at hdata
  have hidx :
      firstIdxDna (("" :: (x :: xs)) ++ ("dna" :: rest))
        = some ("" :: (x :: xs)).length := by
    apply firstIdxDna_append
    intro hmem
    rcases List.mem_cons.mp hmem with he | hmem2
    · exact absurd he.symm (by decide)
    · exact hd hmem2
  have hpre :
      joinSlash ((("" :: (x :: xs)) ++ ("dna" :: rest)).take
          ("" :: (x :: xs)).length)
        = "/" ++ joinSlash (x :: xs) := by
    rw [List.take_left]
    exact joinSlash_nil_cons x xs
  unfold dnacPrefix
  rw [if_neg hp_ne, hsplit, hidx]
  simp only [hpre, startsWithSlash_slash_append, Bool.not_true, Bool.and_false,
    Bool.false_eq_true, if_false]
  apply trimRightSlash_of_getLast_ne
  intro c hc
  have hJ : (joinSlash (x :: xs)).toList ≠ [] :=
    joinSlash_toList_ne_nil _ (by simp) (fun s hs => (hss s hs).1)
  have hdata : ("/" ++ joinSlash (x :: xs)).toList
      = ['/'] ++ (joinSlash (x :: xs)).toList := by
    show ("/" ++ joinSlash (x :: xs)).data = _
    simp [String.data_append]
  rw [hdata, List.getLast?_append_of_ne_nil _ hJ] at hc
  exact joinSlash_getLast_ne (x :: xs) (by simp) hss c hc

end Catalyst

namespace Catalyst

/-! ## Claim C5: prefix-preserving issues URL construction -/

/-- C5: the constructed issues endpoint URL appends the fixed path
/dna/data/api/v1/assuranceIssues, preserving verbatim the path
segments preceding the first dna segment as a prefix; with no dna
segment in the base path no prefix is applied; in particular the base
URL https://gw/proxy/dnac/dna yields
https://gw/proxy/dnac/dna/data/api/v1/assuranceIssues. -/
theorem issuesURL_prefix_preserved :
    (IssuesURL { scheme := "https", host := "gw", path := "/proxy/dnac/dna" }
        = "https://gw/proxy/dnac/dna/data/api/v1/assuranceIssues")
    ∧ (∀ u : GoURL, firstIdxDna (splitOnSlash u.path) = none →
        IssuesURL u
          = u.scheme ++ "://" ++ u.host ++ "/dna/data/api/v1/assuranceIssues")
    ∧ (∀ (ss rest : List String) (scheme host : String),
        "dna" ∉ ss → ss ≠ [] →
        (∀ s ∈ ss, s ≠ "" ∧ '/' ∉ s.toList) →
        (∀ s ∈ rest, '/' ∉ s.toList) →
        IssuesURL { scheme := scheme, host := host,
                    path := joinSlash (("" :: ss) ++ ("dna" :: rest)) }
          = scheme ++ "://" ++ host ++ ("/" ++ joinSlash ss)
              ++ "/dna/data/api/v1/assuranceIssues") := by
  refine ⟨by decide, ?_, ?_⟩
  · intro u h
    have hpre : dnacPrefix u.path = "" := by
      unfold dnacPrefix
      by_cases hp : u.path = ""
      · simp [hp]
      · rw [if_neg hp, h]
    unfold IssuesURL renderURL
    rw [hpre]
    apply String.ext
    simp [String.data_append]
  · intro ss rest scheme host hd hne hss hrest
    unfold IssuesURL renderURL
    rw [dnacPrefix_verbatim ss rest hd hne hss hrest]
    apply String.ext
    simp [String.data_append]

/-- Witness for C5: the no-prefix case at a concrete dna-free base
path, and a concrete two-segment reverse-proxy prefix. -/
theorem issuesURL_prefix_preserved_witness :
    IssuesURL { scheme := "https", host := "h", path := "/abc" }
        = "https://h" ++ "/dna/data/api/v1/assuranceIssues"
    ∧ IssuesURL { scheme := "https", host := "gw",
                  path := joinSlash (("" :: ["proxy", "dnac"]) ++ ("dna" :: [])) }
        = "https" ++ "://" ++ "gw" ++ ("/" ++ joinSlash ["proxy", "dnac"])
            ++ "/dna/data/api/v1/assuranceIssues" := by
  constructor
  · have h := issuesURL_prefix_preserved.2.1
      { scheme := "https", host := "h", path := "/abc" } (by decide)
    rw [h]
    decide
  · exact issuesURL_prefix_preserved.2.2 ["proxy", "dnac"] [] "https" "gw"
      (by decide) (by decide) (by decide) (by decide)

end Catalyst

namespace Catalyst

/-! ## Claim C9: legacy and primary field names normalize alike -/

theorem jlookup_not_mem (r : RawRecord) (k : String)
    (h : ∀ p ∈ r, ¬ p.1 = k) : jlookup r k = none := by
  induction r with
  | nil => rfl
  | cons hd tl ih =>
    obtain ⟨k0, v⟩ := hd
    have hk : ¬ k0 = k := h (k0, v) (by simp)
    simp only [jlookup, hk, if_false]
    exact ih (fun p hp => h p (List.mem_cons_of_mem _ hp))

theorem firstNonEmpty_pair_comm (v : String) :
    firstNonEmpty [v, ""] = firstNonEmpty ["", v] := by
  have h0 : trimSpace "" = "" := by decide
  by_cases h : trimSpace v = "" <;> simp [firstNonEmpty, h, h0]

/-- C9: a raw record carrying a value only under the legacy field
names severity and status normalizes to the same Row as the record
carrying the same values only under the primary names priority and
issueStatus, for every window start, site-name map and remainder of
the record that carries none of the four field names. -/
theorem normalize_legacy_primary_roundtrip
    (sv stv : String) (rest : RawRecord) (ws : Int)
    (sm : List (String × String))
    (hp : ∀ p ∈ rest, ¬ p.1 = "priority")
    (hs : ∀ p ∈ rest, ¬ p.1 = "severity")
    (hi : ∀ p ∈ rest, ¬ p.1 = "issueStatus")
    (hst : ∀ p ∈ rest, ¬ p.1 = "status") :
    normalizeRecord
        (("severity", JVal.jstr sv) :: ("status", JVal.jstr stv) :: rest) ws sm
      = normalizeRecord
        (("priority", JVal.jstr sv) :: ("issueStatus", JVal.jstr stv) :: rest)
        ws sm := by
  have h1 : jlookup rest "priority" = none := jlookup_not_mem rest _ hp
  have h2 : jlookup rest "severity" = none := jlookup_not_mem rest _ hs
  have h3 : jlookup rest "issueStatus" = none := jlookup_not_mem rest _ hi
  have h4 : jlookup rest "status" = none := jlookup_not_mem rest _ hst
  have hgStr : ∀ k : String, ¬ ("severity" = k) → ¬ ("status" = k) →
      ¬ ("priority" = k) → ¬ ("issueStatus" = k) →
      getStr (("severity", JVal.jstr sv) :: ("status", JVal.jstr stv) :: rest) k
        = getStr
            (("priority", JVal.jstr sv) :: ("issueStatus", JVal.jstr stv) :: rest)
            k := by
    intro k n1 n2 n3 n4
    simp [getStr, jlookup, n1, n2, n3, n4]
  have hgNum : ∀ k : String, ¬ ("severity" = k) → ¬ ("status" = k) →
      ¬ ("priority" = k) → ¬ ("issueStatus" = k) →
      getNum (("severity", JVal.jstr sv) :: ("status", JVal.jstr stv) :: rest) k
        = getNum
            (("priority", JVal.jstr sv) :: ("issueStatus", JVal.jstr stv) :: rest)
            k := by
    intro k n1 n2 n3 n4
    simp [getNum, jlookup, n1, n2, n3, n4]
  have hsev :
      firstNonEmpty
          [getStr (("severity", JVal.jstr sv) :: ("status", JVal.jstr stv) :: rest)
            "priority",
          getStr (("severity", JVal.jstr sv) :: ("status", JVal.jstr stv) :: rest)
            "severity"]
        = firstNonEmpty
          [getStr
            (("priority", JVal.jstr sv) :: ("issueStatus", JVal.jstr stv) :: rest)
            "priority",
          getStr
            (("priority", JVal.jstr sv) :: ("issueStatus", JVal.jstr stv) :: rest)
            "severity"] := by
    have l1 : getStr (("severity", JVal.jstr sv) :: ("status", JVal.jstr stv) :: rest)
        "priority" = "" := by simp [getStr, jlookup, h1]
    have l2 : getStr (("severity", JVal.jstr sv) :: ("status", JVal.jstr stv) :: rest)
        "severity" = sv := by simp [getStr, jlookup]
    have l3 : getStr
        (("priority", JVal.jstr sv) :: ("issueStatus", JVal.jstr stv) :: rest)
        "priority" = sv := by simp [getStr, jlookup]
    have l4 : getStr
        (("priority", JVal.jstr sv) :: ("issueStatus", JVal.jstr stv) :: rest)
        "severity" = "" := by simp [getStr, jlookup, h2]
    rw [l1, l2, l3, l4]
    exact (firstNonEmpty_pair_comm sv).symm
  have hstat :
      firstNonEmpty
          [getStr (("severity", JVal.jstr sv) :: ("status", JVal.jstr stv) :: rest)
            "issueStatus",
          getStr (("severity", JVal.jstr sv) :: ("status", JVal.jstr stv) :: rest)
            "status"]
        = firstNonEmpty
          [getStr
            (("priority", JVal.jstr sv) :: ("issueStatus", JVal.jstr stv) :: rest)
            "issueStatus",
          getStr
            (("priority", JVal.jstr sv) :: ("issueStatus", JVal.jstr stv) :: rest)
            "status"] := by
    have l1 : getStr (("severity", JVal.jstr sv) :: ("status", JVal.jstr stv) :: rest)
        "issueStatus" = "" := by simp [getStr, jlookup, h3]
    have l2 : getStr (("severity", JVal.jstr sv) :: ("status", JVal.jstr stv) :: rest)
        "status" = stv := by simp [getStr, jlookup]
    have l3 : getStr
        (("priority", JVal.jstr sv) :: ("issueStatus", JVal.jstr stv) :: rest)
        "issueStatus" = stv := by simp [getStr, jlookup]
    have l4 : getStr
        (("priority", JVal.jstr sv) :: ("issueStatus", JVal.jstr stv) :: rest)
        "status" = "" := by simp [getStr, jlookup, h4]
    rw [l1, l2, l3, l4]
    exact (firstNonEmpty_pair_comm stv).symm
  unfold normalizeRecord
  rw [hsev, hstat,
    hgStr "siteId" (by decide) (by decide) (by decide) (by decide),
    hgNum "timestamp" (by decide) (by decide) (by decide) (by decide),
    hgNum "firstOccurredTime" (by decide) (by decide) (by decide) (by decide),
    hgNum "startTime" (by decide) (by decide) (by decide) (by decide),
    hgStr "issueId" (by decide) (by decide) (by decide) (by decide),
    hgStr "id" (by decide) (by decide) (by decide) (by decide),
    hgStr "instanceId" (by decide) (by decide) (by decide) (by decide),
    hgStr "name" (by decide) (by decide) (by decide) (by decide),
    hgStr "title" (by decide) (by decide) (by decide) (by decide),
    hgStr "issueTitle" (by decide) (by decide) (by decide) (by decide),
    hgStr "category" (by decide) (by decide) (by decide) (by decide),
    hgStr "type" (by decide) (by decide) (by decide) (by decide),
    hgStr "deviceId" (by decide) (by decide) (by decide) (by decide),
    hgStr "deviceIp" (by decide) (by decide) (by decide) (by decide),
    hgStr "device" (by decide) (by decide) (by decide) (by decide),
    hgStr "macAddress" (by decide) (by decide) (by decide) (by decide),
    hgStr "clientMac" (by decide) (by decide) (by decide) (by decide),
    hgStr "ruleId" (by decide) (by decide) (by decide) (by decide),
    hgStr "description" (by decide) (by decide) (by decide) (by decide),
    hgStr "details" (by decide) (by decide) (by decide) (by decide),
    hgStr "issueDescription" (by decide) (by decide) (by decide) (by decide)]

/-- Witness for C9 at a concrete pair of records. -/
theorem normalize_legacy_primary_roundtrip_witness :
    normalizeRecord
        [("severity", JVal.jstr "P1"), ("status", JVal.jstr "ACTIVE")] 7 []
      = normalizeRecord
        [("priority", JVal.jstr "P1"), ("issueStatus", JVal.jstr "ACTIVE")] 7 [] :=
  normalize_legacy_primary_roundtrip "P1" "ACTIVE" [] 7 []
    (by simp) (by simp) (by simp) (by simp)

end Catalyst

namespace Catalyst

/-! ## Claim C3: the token cache serves the second call -/

theorem tmLookup_tmInsert_self (st : TMState) (uid : String) (e : tokenEntry) :
    tmLookup (tmInsert st uid e) uid = some e := by
  induction st with
  | nil => simp [tmInsert, tmLookup]
  | cons hd tl ih =>
    obtain ⟨k0, e0⟩ := hd
    by_cases h : k0 = uid
    · simp [tmInsert, tmLookup, h]
    · simp [tmInsert, tmLookup, h, ih]

theorem getToken_login_stores (pd : String → Option Int) (st : TMState)
    (now : Int) (uid : String) (s : InstanceSettings)
    (resp : Option LoginResponse) (tok : String) (st2 : TMState)
    (hov : trimSpace s.APIToken = "")
    (h : getToken pd st now uid s resp = (Except.ok tok, st2, true)) :
    ∃ e : tokenEntry, tmLookup st2 uid = some e ∧ e.Token = tok := by
  unfold getToken at h
  rw [hov] at h
  simp only [ne_eq, not_true_eq_false, if_false] at h
  split at h
  · simp at h
  · split at h
    · simp at h
    · rcases resp with _ | r
      · simp at h
      · simp only [] at h
        split at h
        · simp at h
        · split at h
          · split at h
            · simp only [Prod.mk.injEq, Except.ok.injEq] at h
              obtain ⟨h1, h2, -⟩ := h
              subst h1 h2
              exact ⟨_, tmLookup_tmInsert_self _ _ _, rfl⟩
            · simp only [Prod.mk.injEq, Except.ok.injEq] at h
              obtain ⟨h1, h2, -⟩ := h
              subst h1 h2
              exact ⟨_, tmLookup_tmInsert_self _ _ _, rfl⟩
          · split at h
            · simp at h
            · split at h
              · simp only [Prod.mk.injEq, Except.ok.injEq] at h
                obtain ⟨h1, h2, -⟩ := h
                subst h1 h2
                exact ⟨_, tmLookup_tmInsert_self _ _ _, rfl⟩
              · split at h
                · simp only [Prod.mk.injEq, Except.ok.injEq] at h
                  obtain ⟨h1, h2, -⟩ := h
                  subst h1 h2
                  exact ⟨_, tmLookup_tmInsert_self _ _ _, rfl⟩
                · simp only [Prod.mk.injEq, Except.ok.injEq] at h
                  obtain ⟨h1, h2, -⟩ := h
                  subst h1 h2
                  exact ⟨_, tmLookup_tmInsert_self _ _ _, rfl⟩


/-- C3: for an instance with no override token, when getToken succeeds
through a login and stores a token entry, a second getToken call at
any time strictly before the stored expiry, with the cached token
non-empty, returns that same cached token, leaves the cache unchanged
and performs no login HTTP call: the two calls issue exactly one login
request in total. -/
theorem getToken_cached_single_login
    (pd pd2 : String → Option Int) (st st2 : TMState) (n1 n2 : Int)
    (uid : String) (s : InstanceSettings)
    (resp resp2 : Option LoginResponse) (tok : String) (e : tokenEntry)
    (hov : trimSpace s.APIToken = "")
    (h1 : getToken pd st n1 uid s resp = (Except.ok tok, st2, true))
    (hc : tmLookup st2 uid = some e)
    (hne : trimSpace e.Token ≠ "")
    (hn2 : n2 < e.ExpiresAt) :
    getToken pd2 st2 n2 uid s resp2 = (Except.ok e.Token, st2, false)
      ∧ e.Token = tok := by
  obtain ⟨e2, he2, hetok⟩ :=
    getToken_login_stores pd st n1 uid s resp tok st2 hov h1
  have hee : e = e2 := by
    rw [hc] at he2
    exact Option.some.inj he2
  constructor
  · unfold getToken
    rw [hov]
    simp only [ne_eq, not_true_eq_false, if_false]
    rw [hc]
    simp [hn2, hne]
  · rw [hee]
    exact hetok

/-- Witness for C3: a concrete login followed by a cache hit. -/
theorem getToken_cached_single_login_witness :
    getToken (fun _ => none) [("u", { Token := "abc", ExpiresAt := 4300 })]
        2000 "u" { Username := "u", Password := "p" } none
      = (Except.ok "abc", [("u", { Token := "abc", ExpiresAt := 4300 })], false) :=
  (getToken_cached_single_login (fun _ => none) (fun _ => none) [] _ 1000 2000
    "u" { Username := "u", Password := "p" }
    (some { status := 200, headers := [("X-Auth-Token", "abc")], body := {} })
    none "abc" { Token := "abc", ExpiresAt := 4300 }
    (by decide) (by decide) (by decide) (by decide) (by decide)).1

end Catalyst

namespace Catalyst

/-! ## Claim C4: the expiry derivation chain of a successful login -/

/-- C4: on every successful login that yields a token, the cached
expiry follows the ordered fallback of the claim: for a token taken
from the dedicated response header, the header signals with the floor
of five minutes and the default of fifty-five minutes, the JSON body
never consulted (specExpiryChainHeader); for a token taken from the
JSON body, headers before the JSON fields with the same floor and
default (specExpiryChain); within the JSON signals expiresIn comes
first; and the scenario body with token zzz and expiresIn 3600
derives now plus 3600 seconds. -/
theorem token_expiry_derivation
    (pd : String → Option Int) (st : TMState) (now : Int) (uid : String)
    (s : InstanceSettings) (r : LoginResponse)
    (hov : trimSpace s.APIToken = "")
    (hmiss : tmLookup st uid = none)
    (hu : ¬ s.Username = "") (hp : ¬ s.Password = "")
    (hst : 200 ≤ r.status ∧ r.status < 300) :
    (¬ trimSpace (hGet r.headers "X-Auth-Token") = "" →
      getToken pd st now uid s (some r)
        = (Except.ok (trimSpace (hGet r.headers "X-Auth-Token")),
           tmInsert st uid
             { Token := trimSpace (hGet r.headers "X-Auth-Token"),
               ExpiresAt := specExpiryChainHeader pd r now },
           true))
    ∧ (trimSpace (hGet r.headers "X-Auth-Token") = "" →
      ¬ bodyTok r.body = "" →
      getToken pd st now uid s (some r)
        = (Except.ok (bodyTok r.body),
           tmInsert st uid
             { Token := bodyTok r.body, ExpiresAt := specExpiryChain pd r now },
           true))
    ∧ (∀ (pd2 : String → Option Int) (b : TokenBody) (n2 : Int),
        b.ExpiresIn > 0 →
        deriveExpiryFromJSON pd2 b n2 = some (n2 + b.ExpiresIn))
    ∧ (∀ (pd2 : String → Option Int) (n2 : Int),
        deriveExpiryFromJSON pd2 { Token2 := "zzz", ExpiresIn := 3600 } n2
          = some (n2 + 3600)) := by
  have hstatus : ¬ (r.status < 200 ∨ r.status ≥ 300) := by omega
  refine ⟨?_, ?_, ?_, ?_⟩
  · intro hhne
    unfold getToken
    rw [hov]
    simp only [ne_eq, not_true_eq_false, if_false]
    rw [hmiss]
    simp only [hu, hp, or_self, if_false, hstatus, not_false_eq_true,
      false_or, or_false, ite_false, ite_true, not_true_eq_false]
    rw [if_pos hhne]
    rcases hpe : parseExpiryFromHeaders pd r.headers now with _ | e
    · simp [specExpiryChainHeader, hpe, tmSet]
    · simp [specExpiryChainHeader, hpe, setWithExpiry]
  · intro hhdr htok
    unfold getToken
    rw [hov]
    simp only [ne_eq, not_true_eq_false, if_false]
    rw [hmiss]
    simp only [hu, hp, or_self, if_false, hstatus, hhdr, not_false_eq_true,
      false_or, or_false, ite_false, ite_true, not_true_eq_false]
    simp only [htok, if_false]
    rcases hpe : parseExpiryFromHeaders pd r.headers now with _ | e
    · rcases hde : deriveExpiryFromJSON pd r.body now with _ | e2
      · simp [specExpiryChain, hpe, hde, tmSet]
      · simp [specExpiryChain, hpe, hde, setWithExpiry]
    · simp [specExpiryChain, hpe, setWithExpiry]
  · intro pd2 b n2 h
    simp [deriveExpiryFromJSON, h]
  · intro pd2 n2
    norm_num [deriveExpiryFromJSON]

/-- Witness for C4: the body scenario with token zzz and expiresIn
3600 and no expiry headers caches expiry now plus 3600 seconds, and a
header token abc with Cache-Control max-age 120 caches expiry now
plus 120 seconds. -/
theorem token_expiry_derivation_witness :
    (getToken (fun _ => none) [] 1000000 "u" { Username := "u", Password := "p" }
        (some { status := 200, headers := [],
                body := { Token2 := "zzz", ExpiresIn := 3600 } })
      = (Except.ok "zzz",
         [("u", { Token := "zzz", ExpiresAt := 1003600 })], true))
    ∧ (getToken (fun _ => none) [] 1000 "u" { Username := "u", Password := "p" }
        (some { status := 200,
                headers := [("X-Auth-Token", "abc"), ("Cache-Control", "max-age=120")],
                body := {} })
      = (Except.ok "abc",
         [("u", { Token := "abc", ExpiresAt := 1120 })], true)) := by
  constructor
  · have h := (token_expiry_derivation (fun _ => none) [] 1000000 "u"
        { Username := "u", Password := "p" }
        { status := 200, headers := [],
          body := { Token2 := "zzz", ExpiresIn := 3600 } }
        (by decide) (by decide) (by decide) (by decide) (by decide)).2.1
        (by decide) (by decide)
    rw [h]
    decide
  · have h := (token_expiry_derivation (fun _ => none) [] 1000 "u"
        { Username := "u", Password := "p" }
        { status := 200,
          headers := [("X-Auth-Token", "abc"), ("Cache-Control", "max-age=120")],
          body := {} }
        (by decide) (by decide) (by decide) (by decide) (by decide)).1
        (by decide)
    rw [h]
    decide

end Catalyst

namespace Catalyst

/-! ## Claims C1 and C10: the hard cap over the pagination loop -/

theorem fetchLoop_length_le (hard : Nat) (trials : List PageTrial) :
    ∀ (offset : Nat) (acc : List RawRecord),
    acc.length ≤ hard →
    honestRun hard trials offset acc.length = true →
    (fetchLoop hard trials offset acc).1.length ≤ hard := by
  induction trials with
  | nil =>
    intro offset acc hacc _
    unfold fetchLoop
    split <;> simp [hacc]
  | cons t rest ih =>
    intro offset acc hacc hhon
    unfold fetchLoop
    unfold honestRun at hhon
    by_cases hguard : hard ≤ acc.length
    · simp only [hguard, if_true]
      exact hacc
    · simp only [hguard, if_false] at hhon ⊢
      rcases hpf : pageFetch t (Int.ofNat (offset + 1))
          (Int.ofNat (min pageSize (hard - acc.length))) with ⟨o, evs⟩
      rcases o with _ | arr
      · simp only [hpf]
        exact hacc
      · rw [hpf] at hhon
        simp only [hpf]
        simp only [Bool.and_eq_true, decide_eq_true_eq] at hhon
        obtain ⟨harr, hhon2⟩ := hhon
        have hbound : acc.length + arr.length ≤ hard := by
          have h1 : min pageSize (hard - acc.length) ≤ hard - acc.length :=
            min_le_right _ _
          omega
        by_cases h0 : arr.length = 0
        · simp only [h0, if_true]
          exact hacc
        · simp only [h0, if_false]
          by_cases hshort : arr.length < pageSize
          · simp only [hshort, if_true]
            simpa using hbound
          · simp only [hshort, if_false]
            rw [if_neg h0, if_neg hshort] at hhon2
            have := ih (offset + pageSize) (acc ++ arr)
              (by simpa using hbound) (by simpa using hhon2)
            simpa using this


/-- C1 as stated is false on the code: with hard cap 1 (query limit 1)
a single page response carrying two records, more than the limit of
one requested for that page, is appended whole, and the resulting
frame has two rows; the accumulator is never trimmed to the cap. -/
theorem rows_exceed_hardCap_counterexample :
    1 <
      (issueRowsOf
        (queryIssues (some 1)
          [{ tokenOk := true, first := HttpResult.ok 200 [[], []],
             retryTokenOk := true, retry := HttpResult.ok 200 [] }]).1
        0 []).length := by decide

/-- C1 (amended): whenever every page response the loop consumes holds
at most the number of records requested for that page, the accumulated
record count stays at or below the hard cap after every iteration, so
the returned frame never has more rows than the cap. -/
theorem rows_bounded_by_hardCap_of_honest (hard : Nat)
    (trials : List PageTrial) (ws : Int) (sm : List (String × String))
    (h : honestRun hard trials 0 0 = true) :
    (issueRowsOf (fetchLoop hard trials 0 []).1 ws sm).length ≤ hard := by
  have hb := fetchLoop_length_le hard trials 0 [] (by simp) h
  simpa [issueRowsOf] using hb

/-- Witness for the amended C1: the scenario with cap 30 and honest
pages of 25 and 5 records stays within the cap. -/
theorem rows_bounded_by_hardCap_of_honest_witness :
    (issueRowsOf
      (fetchLoop 30
        [{ tokenOk := true, first := HttpResult.ok 200 (List.replicate 25 []),
           retryTokenOk := true, retry := HttpResult.transportErr },
         { tokenOk := true, first := HttpResult.ok 200 (List.replicate 5 []),
           retryTokenOk := true, retry := HttpResult.transportErr }] 0 []).1
      0 []).length ≤ 30 :=
  rows_bounded_by_hardCap_of_honest 30
    [{ tokenOk := true, first := HttpResult.ok 200 (List.replicate 25 []),
       retryTokenOk := true, retry := HttpResult.transportErr },
     { tokenOk := true, first := HttpResult.ok 200 (List.replicate 5 []),
       retryTokenOk := true, retry := HttpResult.transportErr }] 0 []
    (by decide)

/-- C10: a query limit that is absent, zero or negative leaves the
hard cap at the default of 25, so under page responses bounded by
their requested limits such a query returns at most 25 rows; a
strictly positive limit is taken as given. -/
theorem hard_cap_defaults_to_25 :
    (hardLimitOf none = 25)
    ∧ (∀ l : Int, l ≤ 0 → hardLimitOf (some l) = 25)
    ∧ (∀ l : Int, 0 < l → hardLimitOf (some l) = l)
    ∧ (∀ (limit : Option Int) (trials : List PageTrial) (ws : Int)
        (sm : List (String × String)),
        (limit = none ∨ ∃ l, limit = some l ∧ l ≤ 0) →
        honestRun 25 trials 0 0 = true →
        (issueRowsOf (queryIssues limit trials).1 ws sm).length ≤ 25) := by
  refine ⟨rfl, ?_, ?_, ?_⟩
  · intro l h
    show (if l > 0 then l else 25) = 25
    rw [if_neg (by omega)]
  · intro l h
    show (if l > 0 then l else 25) = l
    rw [if_pos h]
  · intro limit trials ws sm hlim hhon
    have h25 : (hardLimitOf limit).toNat = 25 := by
      rcases hlim with rfl | ⟨l, rfl, hl⟩
      · rfl
      · show (if l > 0 then l else 25).toNat = 25
        rw [if_neg (by omega)]
        rfl
    unfold queryIssues
    rw [h25]
    have hb := fetchLoop_length_le 25 trials 0 [] (by simp) hhon
    simpa [issueRowsOf] using hb

/-- Witness for C10: a query limit of zero with one honest full page
of 25 records yields exactly the default cap of rows, not more. -/
theorem hard_cap_defaults_to_25_witness :
    (issueRowsOf
      (queryIssues (some 0)
        [{ tokenOk := true, first := HttpResult.ok 200 (List.replicate 25 []),
           retryTokenOk := true, retry := HttpResult.transportErr }]).1
      0 []).length ≤ 25 :=
  hard_cap_defaults_to_25.2.2.2 (some 0)
    [{ tokenOk := true, first := HttpResult.ok 200 (List.replicate 25 []),
       retryTokenOk := true, retry := HttpResult.transportErr }] 0 []
    (Or.inr ⟨0, rfl, le_refl 0⟩) (by decide)

end Catalyst

namespace Catalyst

/-! ## Claim C8: a short page ends the pagination -/

/-- C8: once a page response carries fewer records than the page limit
requested for that page, the loop finishes without issuing any further
list request: the outcome equals that of the oracle truncated after
this page, the event trace is exactly the trace of this page, and no error
is reported. -/
theorem short_page_stops_pagination (hard : Nat) (t : PageTrial)
    (rest : List PageTrial) (offset : Nat) (acc arr : List RawRecord)
    (evs : List Ev)
    (hguard : acc.length < hard)
    (hpf : pageFetch t (Int.ofNat (offset + 1))
        (Int.ofNat (min pageSize (hard - acc.length))) = (some arr, evs))
    (hshort : arr.length < min pageSize (hard - acc.length)) :
    fetchLoop hard (t :: rest) offset acc
      = ((if arr.length = 0 then acc else acc ++ arr), evs, false)
    ∧ fetchLoop hard (t :: rest) offset acc = fetchLoop hard [t] offset acc := by
  have hlt : arr.length < pageSize := lt_of_lt_of_le hshort (min_le_left _ _)
  have haux : ∀ rs : List PageTrial,
      fetchLoop hard (t :: rs) offset acc
        = ((if arr.length = 0 then acc else acc ++ arr), evs, false) := by
    intro rs
    unfold fetchLoop
    rw [if_neg (Nat.not_le.mpr hguard)]
    simp only [hpf]
    by_cases h0 : arr.length = 0
    · simp [h0]
    · simp [h0, hlt]
  exact ⟨haux rest, (haux rest).trans (haux []).symm⟩

/-- Witness for C8: with cap 30 a second page of 3 records against a
requested limit of 5 stops the loop even when the oracle offers a
third page. -/
theorem short_page_stops_pagination_witness :
    fetchLoop 30
        [{ tokenOk := true, first := HttpResult.ok 200 (List.replicate 3 []),
           retryTokenOk := true, retry := HttpResult.transportErr },
         { tokenOk := true, first := HttpResult.ok 200 (List.replicate 9 []),
           retryTokenOk := true, retry := HttpResult.transportErr }] 4 []
      = fetchLoop 30
        [{ tokenOk := true, first := HttpResult.ok 200 (List.replicate 3 []),
           retryTokenOk := true, retry := HttpResult.transportErr }] 4 [] :=
  (short_page_stops_pagination 30
    { tokenOk := true, first := HttpResult.ok 200 (List.replicate 3 []),
      retryTokenOk := true, retry := HttpResult.transportErr }
    [{ tokenOk := true, first := HttpResult.ok 200 (List.replicate 9 []),
       retryTokenOk := true, retry := HttpResult.transportErr }]
    4 [] (List.replicate 3 [])
    [Ev.tokenFetch, Ev.request 5 25 false]
    (by decide) (by decide) (by decide)).2

end Catalyst

namespace Catalyst

/-! ## Claim C2: the single 401/403 invalidate-refresh-retry -/

/-- C2: when a list page request returns 401 or 403, the loop
invalidates the cached token, fetches exactly one fresh token and
reissues the identical request, same offset and limit, exactly once;
if that retry returns any non-2xx status or fails at transport level,
the query fails permanently with no further request and the
accumulator, hence the offset, is left where it was. -/
theorem auth_retry_once (hard : Nat) (t : PageTrial) (rest : List PageTrial)
    (offset : Nat) (acc arr : List RawRecord) (st : Int)
    (hguard : acc.length < hard)
    (htok : t.tokenOk = true)
    (hfirst : t.first = HttpResult.ok st arr)
    (hauth : st = 401 ∨ st = 403) :
    (t.retryTokenOk = true →
      (pageFetch t (Int.ofNat (offset + 1))
          (Int.ofNat (min pageSize (hard - acc.length)))).2
        = [Ev.tokenFetch,
           Ev.request (Int.ofNat (offset + 1))
             (Int.ofNat (min pageSize (hard - acc.length))) false,
           Ev.invalidate, Ev.tokenFetch,
           Ev.request (Int.ofNat (offset + 1))
             (Int.ofNat (min pageSize (hard - acc.length))) true])
    ∧ (∀ (st2 : Int) (arr2 : List RawRecord),
        t.retryTokenOk = true → t.retry = HttpResult.ok st2 arr2 →
        200 ≤ st2 ∧ st2 < 300 →
        (pageFetch t (Int.ofNat (offset + 1))
            (Int.ofNat (min pageSize (hard - acc.length)))).1 = some arr2)
    ∧ (∀ (st2 : Int) (arr2 : List RawRecord),
        t.retryTokenOk = true → t.retry = HttpResult.ok st2 arr2 →
        st2 < 200 ∨ st2 ≥ 300 →
        fetchLoop hard (t :: rest) offset acc
          = (acc,
             [Ev.tokenFetch,
              Ev.request (Int.ofNat (offset + 1))
                (Int.ofNat (min pageSize (hard - acc.length))) false,
              Ev.invalidate, Ev.tokenFetch,
              Ev.request (Int.ofNat (offset + 1))
                (Int.ofNat (min pageSize (hard - acc.length))) true],
             true))
    ∧ (t.retryTokenOk = true → t.retry = HttpResult.transportErr →
        fetchLoop hard (t :: rest) offset acc
          = (acc,
             [Ev.tokenFetch,
              Ev.request (Int.ofNat (offset + 1))
                (Int.ofNat (min pageSize (hard - acc.length))) false,
              Ev.invalidate, Ev.tokenFetch,
              Ev.request (Int.ofNat (offset + 1))
                (Int.ofNat (min pageSize (hard - acc.length))) true],
             true)) := by
  refine ⟨?_, ?_, ?_, ?_⟩
  · intro hrt
    rcases hre : t.retry with _ | ⟨st2, arr2⟩
    · unfold pageFetch
      rw [htok, hfirst, hre]
      simp only [Bool.not_true, Bool.false_eq_true, if_false, hauth, if_true, hrt]
    · unfold pageFetch
      rw [htok, hfirst, hre]
      simp only [Bool.not_true, Bool.false_eq_true, if_false, hauth, if_true, hrt]
      split <;> rfl
  · intro st2 arr2 hrt hr h2
    unfold pageFetch
    rw [htok, hfirst, hr]
    simp only [Bool.not_true, Bool.false_eq_true, if_false, hauth, if_true, hrt]
    rw [if_neg (by omega)]
  · intro st2 arr2 hrt hr h2
    unfold fetchLoop
    rw [if_neg (Nat.not_le.mpr hguard)]
    have hpf : pageFetch t (Int.ofNat (offset + 1))
        (Int.ofNat (min pageSize (hard - acc.length)))
        = (none,
           [Ev.tokenFetch,
            Ev.request (Int.ofNat (offset + 1))
              (Int.ofNat (min pageSize (hard - acc.length))) false,
            Ev.invalidate, Ev.tokenFetch,
            Ev.request (Int.ofNat (offset + 1))
              (Int.ofNat (min pageSize (hard - acc.length))) true]) := by
      unfold pageFetch
      rw [htok, hfirst, hr]
      simp only [Bool.not_true, Bool.false_eq_true, if_false, hauth, if_true, hrt]
      rw [if_pos (by omega)]
    simp only [hpf]
  · intro hrt hr
    unfold fetchLoop
    rw [if_neg (Nat.not_le.mpr hguard)]
    have hpf : pageFetch t (Int.ofNat (offset + 1))
        (Int.ofNat (min pageSize (hard - acc.length)))
        = (none,
           [Ev.tokenFetch,
            Ev.request (Int.ofNat (offset + 1))
              (Int.ofNat (min pageSize (hard - acc.length))) false,
            Ev.invalidate, Ev.tokenFetch,
            Ev.request (Int.ofNat (offset + 1))
              (Int.ofNat (min pageSize (hard - acc.length))) true]) := by
      unfold pageFetch
      rw [htok, hfirst, hr]
      simp only [Bool.not_true, Bool.false_eq_true, if_false, hauth, if_true, hrt]
    simp only [hpf]

/-- Witness for C2: a 401 first response whose retry returns 403 fails
the query permanently with the five-event trace and no accumulation. -/
theorem auth_retry_once_witness :
    fetchLoop 25
        [{ tokenOk := true, first := HttpResult.ok 401 [],
           retryTokenOk := true, retry := HttpResult.ok 403 [] }] 0 []
      = ([],
         [Ev.tokenFetch, Ev.request 1 25 false, Ev.invalidate, Ev.tokenFetch,
          Ev.request 1 25 true],
         true) :=
  (auth_retry_once 25
    { tokenOk := true, first := HttpResult.ok 401 [],
      retryTokenOk := true, retry := HttpResult.ok 403 [] }
    [] 0 [] [] 401 (by decide) rfl rfl (Or.inl rfl)).2.2.1 403 []
    rfl rfl (by omega)

end Catalyst
